import Mathlib

/-!
Verification of the Noscli relay-synchronization and secure-messaging engine.

The definitions below are a shallow embedding of the Go source:
  - `src/pkg/tui/model.go` (event merge, rendering dispatch, publish commands),
  - the `nwc` package (payment request/response correlator).
Machine integers of the source are modelled as `Int`/`Nat`; Go maps keyed by
event id are modelled as association lists with overwrite-in-place insertion;
the unspecified iteration order of a Go map combined with the unstable
`sort.Slice` is modelled by a result relation (any sorted permutation of the
deduplicated events is a possible outcome of a run).
-/

namespace Noscli

/-- Embedding of `nostr.Event` (the fields the engine inspects):
`id`, `pubkey`, `createdAt` (seconds), `kind`, `tags`, `content`. -/
structure NEvent where
  id : String
  pubkey : String
  createdAt : Int
  kind : Nat
  tags : List (List String)
  content : String
  deriving DecidableEq, Repr

/-- Event ids of a collection, in order. -/
def ids (l : List NEvent) : List String := l.map NEvent.id

/-- One step of the merge loop body `eventMap[evt.ID] = evt`
(model.go:780-795): on an association-list model of the Go map, an existing
entry with the same id is overwritten in place, otherwise the event is
appended. -/
def insertEvent (m : List NEvent) (e : NEvent) : List NEvent :=
  if ∃ x ∈ m, x.id = e.id then
    m.map (fun x => if x.id = e.id then e else x)
  else
    m ++ [e]

/-- The deduplicated contents of the Go map built by the merge handlers
(model.go:777-795, identically at 818-836 for DMs and 881-899 for
notifications): seed the map with the existing collection, then insert every
incoming event. The list records one representative extraction order; a real
run may extract the entries in any order. -/
def mergeMap (existing incoming : List NEvent) : List NEvent :=
  incoming.foldl insertEvent (existing.foldl insertEvent [])

/-- The comparator-induced order of `sort.Slice` at model.go:804-806 (and
844-846, 907-909): `less i j` is `CreatedAt(i).After(CreatedAt(j))`, so a
sorted slice is non-increasing in `createdAt`. -/
def createdAtDesc (a b : NEvent) : Prop := b.createdAt ≤ a.createdAt

/-- The comparator-induced order of `sort.Slice` at model.go:1668-1670 in
`fetchThreadCmd`: `less i j` is `CreatedAt(i) < CreatedAt(j)`, so a sorted
slice is non-decreasing in `createdAt`. -/
def createdAtAsc (a b : NEvent) : Prop := a.createdAt ≤ b.createdAt

instance : DecidableRel createdAtDesc :=
  fun a b => inferInstanceAs (Decidable (b.createdAt ≤ a.createdAt))

instance : DecidableRel createdAtAsc :=
  fun a b => inferInstanceAs (Decidable (a.createdAt ≤ b.createdAt))

/-- Outcome relation of one merge step (`eventsMsg` / `dmsMsg` /
`notificationsMsg` handler, model.go:774-916): the new collection is some
permutation of the deduplicated map contents (Go map iteration order is
unspecified) that the unstable `sort.Slice` left sorted by `createdAt`
descending. -/
def MergeResult (existing incoming out : List NEvent) : Prop :=
  out.Perm (mergeMap existing incoming) ∧ out.Sorted createdAtDesc

/-- Outcome relation of the thread fetch (`fetchThreadCmd`,
model.go:1637-1674): the reply list is some permutation of the raw relay
union, sorted by `createdAt` ascending. -/
def ThreadResult (raw out : List NEvent) : Prop :=
  out.Perm raw ∧ out.Sorted createdAtAsc

instance (a b c : List NEvent) : Decidable (MergeResult a b c) :=
  decidable_of_iff (c.Perm (mergeMap a b) ∧ c.Sorted createdAtDesc) Iff.rfl

instance (a b : List NEvent) : Decidable (ThreadResult a b) :=
  decidable_of_iff (b.Perm a ∧ b.Sorted createdAtAsc) Iff.rfl

/-- The last event of `l` whose id is `i`, if any: the value a Go map holds
at key `i` after inserting all of `l` in order. -/
def lastWithId : List NEvent → String → Option NEvent
  | [], _ => none
  | e :: t, i =>
    match lastWithId t i with
    | some v => some v
    | none => if e.id = i then some e else none

theorem ids_insertEvent (m : List NEvent) (e : NEvent) :
    ids (insertEvent m e) =
      if ∃ x ∈ m, x.id = e.id then ids m else ids m ++ [e.id] := by
  unfold insertEvent ids
  split
  · rw [List.map_map]
    exact List.map_congr_left fun x _ => by
      simp only [Function.comp]
      split
      · next h => simp [h]
      · rfl
  · simp

theorem nodup_ids_insertEvent {m : List NEvent} (e : NEvent)
    (h : (ids m).Nodup) : (ids (insertEvent m e)).Nodup := by
  rw [ids_insertEvent]
  split
  · exact h
  · next hn =>
    have : e.id ∉ ids m := by
      intro hmem
      rcases List.mem_map.mp hmem with ⟨x, hx, hxe⟩
      exact hn ⟨x, hx, hxe⟩
    simp [List.nodup_append, h, this]

theorem nodup_ids_foldl (l : List NEvent) :
    ∀ acc : List NEvent, (ids acc).Nodup →
      (ids (l.foldl insertEvent acc)).Nodup := by
  induction l with
  | nil => intro acc h; exact h
  | cons e t ih =>
    intro acc h
    exact ih (insertEvent acc e) (nodup_ids_insertEvent e h)

theorem nodup_ids_mergeMap (existing incoming : List NEvent) :
    (ids (mergeMap existing incoming)).Nodup := by
  unfold mergeMap
  exact nodup_ids_foldl incoming _ (nodup_ids_foldl existing [] (by simp [ids]))

theorem mem_ids_insertEvent {m : List NEvent} {i : String} (e : NEvent)
    (h : i ∈ ids m) : i ∈ ids (insertEvent m e) := by
  rw [ids_insertEvent]
  split
  · exact h
  · exact List.mem_append_left _ h

theorem mem_ids_insertEvent_self (m : List NEvent) (e : NEvent) :
    e.id ∈ ids (insertEvent m e) := by
  rw [ids_insertEvent]
  split
  · next h =>
    rcases h with ⟨x, hx, hxe⟩
    exact hxe ▸ List.mem_map.mpr ⟨x, hx, rfl⟩
  · simp

theorem mem_ids_foldl_acc (l : List NEvent) :
    ∀ (acc : List NEvent) (i : String), i ∈ ids acc →
      i ∈ ids (l.foldl insertEvent acc) := by
  induction l with
  | nil => intro acc i h; exact h
  | cons e t ih =>
    intro acc i h
    exact ih (insertEvent acc e) i (mem_ids_insertEvent e h)

theorem mem_ids_foldl_of_mem {l : List NEvent} {e : NEvent} (h : e ∈ l) :
    ∀ acc : List NEvent, e.id ∈ ids (l.foldl insertEvent acc) := by
  induction l with
  | nil => cases h
  | cons x t ih =>
    intro acc
    rcases List.mem_cons.mp h with rfl | ht
    · exact mem_ids_foldl_acc t _ _ (mem_ids_insertEvent_self acc e)
    · exact ih ht (insertEvent acc x)

theorem mem_foldl_insert (l : List NEvent) :
    ∀ (acc : List NEvent) (x : NEvent), x ∈ l.foldl insertEvent acc →
      lastWithId l x.id = some x ∨ (lastWithId l x.id = none ∧ x ∈ acc) := by
  induction l with
  | nil =>
    intro acc x h
    exact Or.inr ⟨rfl, h⟩
  | cons e t ih =>
    intro acc x h
    rcases ih (insertEvent acc e) x h with hsome | ⟨hnone, hmem⟩
    · left
      simp only [lastWithId, hsome]
    · have hcons : lastWithId (e :: t) x.id =
          if e.id = x.id then some e else none := by
        simp only [lastWithId, hnone]
      unfold insertEvent at hmem
      split at hmem
      · rcases List.mem_map.mp hmem with ⟨y, hy, hxy⟩
        by_cases hid : y.id = e.id
        · rw [if_pos hid] at hxy
          subst hxy
          left
          rw [hcons, if_pos rfl]
        · rw [if_neg hid] at hxy
          subst hxy
          right
          refine ⟨?_, hy⟩
          rw [hcons, if_neg (fun h => hid h.symm)]
      · next hno =>
        rcases List.mem_append.mp hmem with hacc | he
        · right
          refine ⟨?_, hacc⟩
          have hne : e.id ≠ x.id := fun h => hno ⟨x, hacc, h.symm⟩
          rw [hcons, if_neg hne]
        · left
          have hxe : x = e := List.mem_singleton.mp he
          subst hxe
          rw [hcons, if_pos rfl]

theorem foldl_insert_eq_map (l : List NEvent) :
    ∀ acc : List NEvent, (∀ e ∈ l, e.id ∈ ids acc) →
      l.foldl insertEvent acc =
        acc.map (fun x => (lastWithId l x.id).getD x) := by
  induction l with
  | nil =>
    intro acc _
    show acc = acc.map (fun x => x)
    simp
  | cons e t ih =>
    intro acc hids
    have he : e.id ∈ ids acc := hids e (List.mem_cons_self e t)
    have hover : ∃ x ∈ acc, x.id = e.id := by
      rcases List.mem_map.mp he with ⟨x, hx, hxe⟩
      exact ⟨x, hx, hxe⟩
    have hins : insertEvent acc e =
        acc.map (fun x => if x.id = e.id then e else x) := by
      unfold insertEvent; rw [if_pos hover]
    have hids' : ∀ x ∈ t, x.id ∈ ids (insertEvent acc e) := fun x hx =>
      mem_ids_insertEvent e (hids x (List.mem_cons_of_mem e hx))
    show t.foldl insertEvent (insertEvent acc e) = _
    rw [ih (insertEvent acc e) hids', hins, List.map_map]
    refine List.map_congr_left fun y _ => ?_
    simp only [Function.comp]
    have hgid : (if y.id = e.id then e else y).id = y.id := by
      split
      · next h => exact h.symm
      · rfl
    rw [hgid]
    cases hlast : lastWithId t y.id with
    | some v =>
      simp only [lastWithId, hlast, Option.getD_some]
    | none =>
      simp only [lastWithId, hlast, Option.getD_none]
      by_cases h : y.id = e.id
      · rw [if_pos h, if_pos h.symm]
        rfl
      · rw [if_neg h, if_neg (fun hh => h hh.symm)]
        rfl

theorem foldl_insert_fresh (l : List NEvent) :
    ∀ acc : List NEvent, (∀ e ∈ l, e.id ∉ ids acc) → (ids l).Nodup →
      l.foldl insertEvent acc = acc ++ l := by
  induction l with
  | nil => intro acc _ _; simp
  | cons e t ih =>
    intro acc hfresh hnd
    have hno : ¬ ∃ x ∈ acc, x.id = e.id := by
      rintro ⟨x, hx, hxe⟩
      exact hfresh e (List.mem_cons_self e t) (hxe ▸ List.mem_map.mpr ⟨x, hx, rfl⟩)
    have hins : insertEvent acc e = acc ++ [e] := by
      unfold insertEvent; rw [if_neg hno]
    have hnd' : (ids t).Nodup := (List.nodup_cons.mp hnd).2
    have hhead : e.id ∉ ids t := (List.nodup_cons.mp hnd).1
    have hfresh' : ∀ x ∈ t, x.id ∉ ids (acc ++ [e]) := by
      intro x hx hmem
      rcases List.mem_map.mp hmem with ⟨y, hy, hyx⟩
      rcases List.mem_append.mp hy with hya | hye
      · exact hfresh x (List.mem_cons_of_mem e hx) (hyx ▸ List.mem_map.mpr ⟨y, hya, rfl⟩)
      · rw [List.mem_singleton.mp hye] at hyx
        exact hhead (hyx ▸ List.mem_map.mpr ⟨x, hx, rfl⟩)
    show t.foldl insertEvent (insertEvent acc e) = _
    rw [hins, ih (acc ++ [e]) hfresh' hnd', List.append_assoc]
    rfl

/-- Re-merging the incoming events into a materialized merge result is a
no-op on the underlying map: re-inserting each event overwrites the slot it
already occupies with the value it already holds. -/
theorem mergeMap_remerge {existing incoming out : List NEvent}
    (hperm : out.Perm (mergeMap existing incoming)) :
    mergeMap out incoming = out := by
  have hnodup : (ids out).Nodup :=
    ((hperm.map NEvent.id).nodup_iff).mpr (nodup_ids_mergeMap existing incoming)
  have hseed : out.foldl insertEvent [] = out := by
    have := foldl_insert_fresh out [] (by intro e _ h; simp [ids] at h) hnodup
    simpa using this
  have hids : ∀ e ∈ incoming, e.id ∈ ids out := by
    intro e he
    have : e.id ∈ ids (mergeMap existing incoming) :=
      mem_ids_foldl_of_mem he (existing.foldl insertEvent [])
    exact (hperm.map NEvent.id).mem_iff.mpr this
  have hvals : ∀ x ∈ out, lastWithId incoming x.id = some x ∨
      lastWithId incoming x.id = none := by
    intro x hx
    have hx' : x ∈ mergeMap existing incoming := hperm.subset hx
    rcases mem_foldl_insert incoming (existing.foldl insertEvent []) x hx' with
      h | ⟨h, _⟩
    · exact Or.inl h
    · exact Or.inr h
  show incoming.foldl insertEvent (out.foldl insertEvent []) = out
  rw [hseed, foldl_insert_eq_map incoming out hids]
  have : ∀ x ∈ out, (lastWithId incoming x.id).getD x = x := by
    intro x hx
    rcases hvals x hx with h | h <;> rw [h] <;> rfl
  calc out.map (fun x => (lastWithId incoming x.id).getD x)
      = out.map (fun x => x) := List.map_congr_left this
    _ = out := by simp

/-- Two sorted-descending lists that are permutations of each other coincide
whenever no two distinct entries of the first share a `createdAt`. -/
theorem sorted_perm_eq (l1 : List NEvent) :
    ∀ l2 : List NEvent, l1.Perm l2 → l1.Sorted createdAtDesc →
      l2.Sorted createdAtDesc →
      l1.Pairwise (fun a b => a.createdAt ≠ b.createdAt) → l1 = l2 := by
  induction l1 with
  | nil =>
    intro l2 hp _ _ _
    exact hp.nil_eq
  | cons a t ih =>
    intro l2 hp hs1 hs2 hd
    cases l2 with
    | nil =>
      have := hp.length_eq
      simp at this
    | cons b t2 =>
      have hab : b = a := by
        have hamem : a ∈ b :: t2 := hp.subset (List.mem_cons_self a t)
        rcases List.mem_cons.mp hamem with h | hat2
        · exact h.symm
        · have hbmem : b ∈ a :: t := hp.symm.subset (List.mem_cons_self b t2)
          rcases List.mem_cons.mp hbmem with h | hbt
          · exact h
          · have h1 : b.createdAt ≤ a.createdAt :=
              (List.sorted_cons.mp hs1).1 b hbt
            have h2 : a.createdAt ≤ b.createdAt :=
              (List.sorted_cons.mp hs2).1 a hat2
            have hne : a.createdAt ≠ b.createdAt :=
              (List.pairwise_cons.mp hd).1 b hbt
            exact absurd (le_antisymm h2 h1) hne
      subst hab
      have hpt : t.Perm t2 := hp.cons_inv
      rw [ih t2 hpt (List.sorted_cons.mp hs1).2 (List.sorted_cons.mp hs2).2
        (List.pairwise_cons.mp hd).2]

/-- Concrete events used to exercise the merge: `evX` and `evY` share a
`createdAt` (a tie), `evZ` is strictly older. -/
def evX : NEvent := ⟨"a", "p1", 10, 1, [], "x"⟩

def evY : NEvent := ⟨"b", "p2", 10, 1, [], "y"⟩

def evZ : NEvent := ⟨"c", "p3", 5, 1, [], "z"⟩

/-- Lexicographic less-or-equal on character lists (the order of string
comparison), written out so it evaluates in the kernel. -/
def lexLeChars : List Char → List Char → Bool
  | [], _ => true
  | _ :: _, [] => false
  | a :: as, b :: bs => if a < b then true else if a = b then lexLeChars as bs else false

/-- Modelled from the spec sentence, for comparison with the code (the code
does not implement it): descending `createdAt` with ties broken by
lexicographic order of `id`. -/
def specTieBreakOrder (a b : NEvent) : Prop :=
  b.createdAt < a.createdAt ∨
    (a.createdAt = b.createdAt ∧ lexLeChars a.id.data b.id.data = true)

instance : DecidableRel specTieBreakOrder := fun a b =>
  inferInstanceAs (Decidable (b.createdAt < a.createdAt ∨
    (a.createdAt = b.createdAt ∧ lexLeChars a.id.data b.id.data = true)))

/-- Claim C2, counterexample: with two distinct events sharing a `createdAt`,
one run of the merge can return `[evX, evY]` and re-merging the same incoming
events can return `[evY, evX]` — the same set but not the same order, so
`Merge(Merge(C, E), E) == Merge(C, E)` fails as an equality of sequences. -/
theorem merge_remerge_can_change_order :
    MergeResult [] [evX, evY] [evX, evY] ∧
    MergeResult [evX, evY] [evX, evY] [evY, evX] ∧
    [evY, evX] ≠ [evX, evY] := by decide

/-- Claim C2 (amended): re-merging the same incoming events never changes
the set of events — every re-merge result is a permutation of the first
result — and whenever no two distinct events of the first result share a
`createdAt`, the sequence is exactly unchanged. -/
theorem merge_idempotent_up_to_ties :
    ∀ existing incoming out1 out2 : List NEvent,
      MergeResult existing incoming out1 →
      MergeResult out1 incoming out2 →
      out2.Perm out1 ∧
        (out1.Pairwise (fun a b => a.createdAt ≠ b.createdAt) → out2 = out1) := by
  intro C E out1 out2 h1 h2
  have hperm : out2.Perm out1 := by
    have h := h2.1
    rw [mergeMap_remerge h1.1] at h
    exact h
  exact ⟨hperm, fun hd =>
    (sorted_perm_eq out1 out2 hperm.symm h1.2 h2.2 hd).symm⟩

theorem merge_idempotent_up_to_ties_witness :
    ([evX, evZ] : List NEvent).Perm [evX, evZ] ∧ [evX, evZ] = [evX, evZ] := by
  have h := merge_idempotent_up_to_ties [] [evX, evZ] [evX, evZ] [evX, evZ]
    (by decide) (by decide)
  exact ⟨h.1, h.2 (by decide)⟩

/-- Claim C3: every merge result (timeline, DM, or notification handler)
contains no two entries with equal event id. -/
theorem merge_no_duplicate_ids :
    ∀ existing incoming out : List NEvent,
      MergeResult existing incoming out →
      (ids out).Nodup ∧
        ∀ i j : Fin out.length, i ≠ j → (out.get i).id ≠ (out.get j).id := by
  intro C E out h
  have hnd : (ids out).Nodup :=
    ((h.1.map NEvent.id).nodup_iff).mpr (nodup_ids_mergeMap C E)
  have hpw : out.Pairwise (fun a b => a.id ≠ b.id) :=
    (List.pairwise_map).mp hnd
  refine ⟨hnd, ?_⟩
  intro i j hij
  rcases lt_or_gt_of_ne hij with hlt | hgt
  · exact List.pairwise_iff_get.mp hpw i j hlt
  · exact (List.pairwise_iff_get.mp hpw j i hgt).symm

theorem merge_no_duplicate_ids_witness :
    (ids [evX, evZ]).Nodup :=
  (merge_no_duplicate_ids [] [evX, evZ] [evX, evZ] (by decide)).1

/-- Claim C4: after every merge the materialized timeline/DM/notification
collection is non-increasing in `createdAt`, and the thread-reply collection
returned by the thread fetch is non-decreasing in `createdAt`. -/
theorem collections_sorted_after_merge :
    (∀ existing incoming out, MergeResult existing incoming out →
      ∀ i j : Fin out.length, i ≤ j →
        (out.get j).createdAt ≤ (out.get i).createdAt) ∧
    (∀ raw out, ThreadResult raw out →
      ∀ i j : Fin out.length, i ≤ j →
        (out.get i).createdAt ≤ (out.get j).createdAt) := by
  constructor
  · intro C E out h i j hij
    rcases eq_or_lt_of_le hij with heq | hlt
    · subst heq
      exact le_refl _
    · exact h.2.rel_get_of_lt hlt
  · intro raw out h i j hij
    rcases eq_or_lt_of_le hij with heq | hlt
    · subst heq
      exact le_refl _
    · exact h.2.rel_get_of_lt hlt

theorem collections_sorted_after_merge_witness :
    (([evX, evZ].get ⟨1, by decide⟩).createdAt ≤
      ([evX, evZ].get ⟨0, by decide⟩).createdAt) ∧
    (([evZ, evX].get ⟨0, by decide⟩).createdAt ≤
      ([evZ, evX].get ⟨1, by decide⟩).createdAt) :=
  ⟨collections_sorted_after_merge.1 [] [evX, evZ] [evX, evZ] (by decide)
      ⟨0, by decide⟩ ⟨1, by decide⟩ (by decide),
    collections_sorted_after_merge.2 [evX, evZ] [evZ, evX] (by decide)
      ⟨0, by decide⟩ ⟨1, by decide⟩ (by decide)⟩

/-- Claim C5, counterexample: on the same inputs the merge step can return
either `[evX, evY]` or `[evY, evX]` (two distinct events with equal
`createdAt`), so the output is not a deterministic function of the inputs;
moreover `[evY, evX]` violates the claimed tie-break by lexicographic id. -/
theorem merge_not_deterministic_on_ties :
    MergeResult [] [evX, evY] [evX, evY] ∧
    MergeResult [] [evX, evY] [evY, evX] ∧
    [evX, evY] ≠ [evY, evX] ∧
    ¬ ([evY, evX] : List NEvent).Sorted specTieBreakOrder := by decide

/-- Claim C5 (amended): the merge output is a permutation of the
deduplicated events, fully re-sorted descending by `createdAt`; events of
equal `createdAt` appear in arbitrary relative order (the comparator has no
id tie-break), and whenever no two distinct events share a `createdAt` the
output sequence is uniquely determined, hence identical across runs. -/
theorem merge_deterministic_without_ties :
    ∀ existing incoming out1 out2 : List NEvent,
      MergeResult existing incoming out1 →
      MergeResult existing incoming out2 →
      out1.Perm out2 ∧ out1.Sorted createdAtDesc ∧
        (out1.Pairwise (fun a b => a.createdAt ≠ b.createdAt) → out1 = out2) := by
  intro C E o1 o2 h1 h2
  have hp : o1.Perm o2 := h1.1.trans h2.1.symm
  exact ⟨hp, h1.2, fun hd => sorted_perm_eq o1 o2 hp h1.2 h2.2 hd⟩

theorem merge_deterministic_without_ties_witness :
    ([evX, evZ] : List NEvent).Perm [evX, evZ] :=
  (merge_deterministic_without_ties [] [evX, evZ] [evX, evZ] [evX, evZ]
    (by decide) (by decide)).1

/-! ### Publish commands (Relay Fetch/Publish Coordinator, quorum semantics)

A relay publish attempt drained from `pool.PublishMany` is modelled as an
`Option String`: `none` for `result.Error == nil` (the relay acknowledged the
event before the timeout), `some e` for a per-relay error `e`. The list holds
the results in the order the channel delivered them, bounded by the timeout.
-/

/-- One iteration of the result-collection loop shared by every publish
command (model.go:2006-2012, and the identical loops in `publishDMCmd`,
`repostCmd`, `publishQuoteCmd`): count acknowledgements, keep the last
observed error. -/
def collectStep (acc : Nat × Option String) (r : Option String) :
    Nat × Option String :=
  match r with
  | none => (acc.1 + 1, acc.2)
  | some e => (acc.1, some e)

/-- `successCount` and `lastErr` after draining all relay results. -/
def collectResults (results : List (Option String)) : Nat × Option String :=
  results.foldl collectStep (0, none)

/-- The last observed per-relay error, if any relay errored. -/
def lastRelayError (results : List (Option String)) : Option String :=
  (collectResults results).2

/-- The message a publish command returns to the update loop:
`publishSuccessMsg{eventID, status}` or `errMsg{err}`. -/
inductive CmdOutcome where
  | publishSuccess (eventID status : String)
  | errMsg (msg : String)
  deriving DecidableEq, Repr

/-- The decision tail shared verbatim by `publishPostCmd`, `repostCmd`,
`publishQuoteCmd` and both branches of `publishDMCmd`
(model.go:2014-2021 etc.): failure exactly when `successCount == 0`, wrapping
the last error when one was observed, else a fixed no-results message. -/
def publishBurstOutcome (wrapPrefix noResultMsg okID okStatus : String)
    (results : List (Option String)) : CmdOutcome :=
  let c := collectResults results
  if c.1 = 0 then
    match c.2 with
    | some e => .errMsg (wrapPrefix ++ e)
    | none => .errMsg noResultMsg
  else
    .publishSuccess okID okStatus

/-- `publishPostCmd` tail (model.go:2001-2021). -/
def publishPostOutcome (eventID : String) (results : List (Option String)) :
    CmdOutcome :=
  publishBurstOutcome "failed to publish: "
    "failed to publish to any relay (no results)" eventID "" results

/-- `repostCmd` tail (model.go:2191-2210). -/
def repostOutcome (eventID : String) (results : List (Option String)) :
    CmdOutcome :=
  publishBurstOutcome "failed to repost: " "failed to repost to any relay"
    eventID "" results

/-- `publishQuoteCmd` tail (model.go:2243-2262). -/
def publishQuoteOutcome (eventID : String) (results : List (Option String)) :
    CmdOutcome :=
  publishBurstOutcome "failed to publish quote: "
    "failed to publish quote to any relay" eventID "" results

/-- NIP-04 branch of `publishDMCmd` (model.go:2143-2163). -/
def publishDM04Outcome (eventID : String) (results : List (Option String)) :
    CmdOutcome :=
  publishBurstOutcome "failed to publish NIP-04 DM: "
    "failed to publish DM to any relay (no results)" eventID
    "DM sent (NIP-04) ✓" results

/-- NIP-17 branch of `publishDMCmd` (model.go:2085-2116): the two gift wraps
are published in two bursts sharing one `successCount`/`lastErr`, which is
the same as draining the concatenation. -/
def publishDM17Outcome (wrapID : String)
    (resultsRecipient resultsSelf : List (Option String)) : CmdOutcome :=
  publishBurstOutcome "failed to publish NIP-17 DM: "
    "failed to publish NIP-17 DM to any relay" wrapID "DM sent (NIP-17) ✓"
    (resultsRecipient ++ resultsSelf)

/-- The publish step of `PayInvoice` (part_000:159-172): `published` is set
when any relay result has no error; on failure the returned error is the
fixed string below — the observed per-relay error is only logged, never
returned. Yields `some errorMessage` on failure, `none` when published. -/
def payInvoicePublishError (results : List (Option String)) : Option String :=
  if (collectResults results).1 = 0 then
    some "failed to publish request to wallet relay"
  else
    none

/-- The outcome reports success (a `publishSuccessMsg` was returned). -/
def reportsSuccess (o : CmdOutcome) : Prop :=
  ∃ i s, o = .publishSuccess i s

/-- The error message of a failure outcome. -/
def failureMsg : CmdOutcome → Option String
  | .publishSuccess _ _ => none
  | .errMsg m => some m

/-- `sub` occurs as a contiguous substring of `s`. -/
def containsStr (s sub : String) : Prop := sub.data <:+: s.data

instance (s sub : String) : Decidable (containsStr s sub) :=
  inferInstanceAs (Decidable (sub.data <:+: s.data))

theorem collectStep_foldl_fst (results : List (Option String)) :
    ∀ init : Nat × Option String,
      (results.foldl collectStep init).1 =
        init.1 + results.countP (fun r => r.isNone) := by
  induction results with
  | nil => intro init; simp
  | cons r t ih =>
    intro init
    cases r with
    | none =>
      rw [List.foldl_cons]
      show (t.foldl collectStep (init.1 + 1, init.2)).1 = _
      rw [ih]
      simp [List.countP_cons]
      omega
    | some e =>
      rw [List.foldl_cons]
      show (t.foldl collectStep (init.1, some e)).1 = _
      rw [ih]
      simp [List.countP_cons]

theorem collect_fst_ne_zero_iff (results : List (Option String)) :
    (collectResults results).1 ≠ 0 ↔ none ∈ results := by
  unfold collectResults
  rw [collectStep_foldl_fst]
  simp only [Nat.zero_add]
  constructor
  · intro h
    rcases List.countP_pos_iff.mp (Nat.pos_of_ne_zero h) with ⟨a, ha, hp⟩
    rwa [Option.isNone_iff_eq_none.mp hp] at ha
  · intro h
    exact Nat.pos_iff_ne_zero.mp (List.countP_pos_iff.mpr ⟨none, h, rfl⟩)

/-- The `lastErr` slot really holds the last error: an error at the end of
the drain wins, a trailing acknowledgement leaves it unchanged. -/
theorem lastRelayError_append_some (results : List (Option String))
    (e : String) : lastRelayError (results ++ [some e]) = some e := by
  unfold lastRelayError collectResults
  rw [List.foldl_append]
  rfl

theorem lastRelayError_append_none (results : List (Option String)) :
    lastRelayError (results ++ [none]) = lastRelayError results := by
  unfold lastRelayError collectResults
  rw [List.foldl_append]
  rfl

theorem string_append_ne_empty {p : String} (e : String) (hp : p ≠ "") :
    p ++ e ≠ "" := by
  intro h
  apply hp
  have hd : p.data ++ e.data = [] := by
    have := congrArg String.data h
    rwa [String.data_append] at this
  have : p.data = [] := (List.append_eq_nil.mp hd).1
  cases p
  simp_all

theorem containsStr_append_right (p e : String) : containsStr (p ++ e) e := by
  unfold containsStr
  rw [String.data_append]
  exact (List.suffix_append p.data e.data).isInfix

/-- The quorum/error behaviour of the shared decision tail. -/
theorem publishBurstOutcome_spec (wrapPrefix noResultMsg okID okStatus : String)
    (results : List (Option String)) (hp : wrapPrefix ≠ "")
    (hn : noResultMsg ≠ "") :
    (reportsSuccess (publishBurstOutcome wrapPrefix noResultMsg okID okStatus
        results) ↔ none ∈ results) ∧
    (∀ msg, failureMsg (publishBurstOutcome wrapPrefix noResultMsg okID
        okStatus results) = some msg →
      msg ≠ "" ∧ ∀ e, lastRelayError results = some e → containsStr msg e) := by
  unfold publishBurstOutcome
  rcases hc : collectResults results with ⟨n, o⟩
  by_cases hz : n = 0
  · subst hz
    have hnone : ¬ none ∈ results := by
      rw [← collect_fst_ne_zero_iff, hc]
      simp
    cases o with
    | some e =>
      simp only [if_pos rfl]
      constructor
      · constructor
        · rintro ⟨i, s, h⟩
          cases h
        · intro h
          exact absurd h hnone
      · intro msg hmsg
        have hm : msg = wrapPrefix ++ e := by
          simpa [failureMsg] using hmsg.symm
        subst hm
        refine ⟨string_append_ne_empty e hp, ?_⟩
        intro e' he'
        have hle : lastRelayError results = some e := by
          unfold lastRelayError
          rw [hc]
        rw [hle] at he'
        cases he'
        exact containsStr_append_right wrapPrefix e
    | none =>
      simp only [if_pos rfl]
      constructor
      · constructor
        · rintro ⟨i, s, h⟩
          cases h
        · intro h
          exact absurd h hnone
      · intro msg hmsg
        have hm : msg = noResultMsg := by
          simpa [failureMsg] using hmsg.symm
        subst hm
        refine ⟨hn, ?_⟩
        intro e' he'
        have hle : lastRelayError results = none := by
          unfold lastRelayError
          rw [hc]
        rw [hle] at he'
        cases he'
  · rw [if_neg (by simpa using hz)]
    constructor
    · constructor
      · intro _
        rw [← collect_fst_ne_zero_iff, hc]
        exact hz
      · intro _
        exact ⟨okID, okStatus, rfl⟩
    · intro msg hmsg
      cases hmsg

/-- Claim C1, counterexample: when the single wallet relay fails with error
"connection refused", the `PayInvoice` publish step reports the fixed error
"failed to publish request to wallet relay" — the failure does not carry the
observed per-relay error (the message does not contain it, and the outcome is
the same for any other per-relay error). -/
theorem nwc_publish_error_not_carried :
    lastRelayError [some "connection refused"] = some "connection refused" ∧
    payInvoicePublishError [some "connection refused"] =
      some "failed to publish request to wallet relay" ∧
    ¬ containsStr "failed to publish request to wallet relay"
        "connection refused" ∧
    payInvoicePublishError [some "connection refused"] =
      payInvoicePublishError [some "relay closed the connection"] := by
  decide

/-- Claim C1 (amended): every publish operation (post, repost, quote, DM in
either envelope, payment request) reports success iff at least one relay
acknowledged the event before the timeout, and reports a non-empty error
otherwise; the post, repost, quote and DM publishes carry the last observed
per-relay error inside the failure message when one exists, while the
payment-request publish reports the fixed message
"failed to publish request to wallet relay" without the per-relay error. -/
theorem publish_quorum_semantics :
    ∀ (eventID wrapID : String) (results r1 r2 : List (Option String)),
      (reportsSuccess (publishPostOutcome eventID results) ↔ none ∈ results) ∧
      (reportsSuccess (repostOutcome eventID results) ↔ none ∈ results) ∧
      (reportsSuccess (publishQuoteOutcome eventID results) ↔ none ∈ results) ∧
      (reportsSuccess (publishDM04Outcome eventID results) ↔ none ∈ results) ∧
      (reportsSuccess (publishDM17Outcome wrapID r1 r2) ↔
        (none ∈ r1 ∨ none ∈ r2)) ∧
      (payInvoicePublishError results = none ↔ none ∈ results) ∧
      (∀ msg, failureMsg (publishPostOutcome eventID results) = some msg →
        msg ≠ "" ∧ ∀ e, lastRelayError results = some e → containsStr msg e) ∧
      (∀ msg, failureMsg (repostOutcome eventID results) = some msg →
        msg ≠ "" ∧ ∀ e, lastRelayError results = some e → containsStr msg e) ∧
      (∀ msg, failureMsg (publishQuoteOutcome eventID results) = some msg →
        msg ≠ "" ∧ ∀ e, lastRelayError results = some e → containsStr msg e) ∧
      (∀ msg, failureMsg (publishDM04Outcome eventID results) = some msg →
        msg ≠ "" ∧ ∀ e, lastRelayError results = some e → containsStr msg e) ∧
      (∀ msg, failureMsg (publishDM17Outcome wrapID r1 r2) = some msg →
        msg ≠ "" ∧
          ∀ e, lastRelayError (r1 ++ r2) = some e → containsStr msg e) ∧
      (∀ msg, payInvoicePublishError results = some msg →
        msg = "failed to publish request to wallet relay" ∧ msg ≠ "") := by
  intro eventID wrapID results r1 r2
  have hpost := publishBurstOutcome_spec "failed to publish: "
    "failed to publish to any relay (no results)" eventID "" results
    (by decide) (by decide)
  have hrepost := publishBurstOutcome_spec "failed to repost: "
    "failed to repost to any relay" eventID "" results (by decide) (by decide)
  have hquote := publishBurstOutcome_spec "failed to publish quote: "
    "failed to publish quote to any relay" eventID "" results
    (by decide) (by decide)
  have hdm04 := publishBurstOutcome_spec "failed to publish NIP-04 DM: "
    "failed to publish DM to any relay (no results)" eventID
    "DM sent (NIP-04) ✓" results (by decide) (by decide)
  have hdm17 := publishBurstOutcome_spec "failed to publish NIP-17 DM: "
    "failed to publish NIP-17 DM to any relay" wrapID "DM sent (NIP-17) ✓"
    (r1 ++ r2) (by decide) (by decide)
  refine ⟨hpost.1, hrepost.1, hquote.1, hdm04.1, ?_, ?_, hpost.2, hrepost.2,
    hquote.2, hdm04.2, hdm17.2, ?_⟩
  · rw [show (reportsSuccess (publishDM17Outcome wrapID r1 r2) ↔
        none ∈ r1 ++ r2) from hdm17.1]
    exact List.mem_append
  · constructor
    · intro h
      by_cases hz : (collectResults results).1 = 0
      · unfold payInvoicePublishError at h
        rw [if_pos hz] at h
        cases h
      · exact (collect_fst_ne_zero_iff results).mp hz
    · intro h
      have hz := (collect_fst_ne_zero_iff results).mpr h
      unfold payInvoicePublishError
      rw [if_neg hz]
  · intro msg hmsg
    unfold payInvoicePublishError at hmsg
    by_cases hz : (collectResults results).1 = 0
    · rw [if_pos hz] at hmsg
      cases hmsg
      exact ⟨rfl, by decide⟩
    · rw [if_neg hz] at hmsg
      cases hmsg

theorem publish_quorum_semantics_witness :
    reportsSuccess (publishPostOutcome "id1" [some "timeout", none]) :=
  ((publish_quorum_semantics "id1" "w" [some "timeout", none] [] []).1).mpr
    (by decide)

/-! ### Payment Request/Response Correlator (`PayInvoice`, part_000) -/

/-- The per-tag test of the response-matching loop (part_000:195-208): a tag
matches when it has at least two elements and is either a recipient tag
`["p", requesterPubkey, ...]` or a reference tag `["e", requestEventId, ...]`. -/
def tagMatches (requestId requesterPubkey : String) : List String → Bool
  | key :: value :: _ =>
    (decide (key = "p") && decide (value = requesterPubkey)) ||
      (decide (key = "e") && decide (value = requestId))
  | _ => false

/-- `isResponse` for one incoming event (part_000:194-208): some tag matches. -/
def isResponseMatch (requestId requesterPubkey : String)
    (tags : List (List String)) : Bool :=
  tags.any (tagMatches requestId requesterPubkey)

/-- The waiting loop (part_000:178-251) consumes incoming events in order and
resolves on the first matching one; non-matching events are skipped and
waiting continues. -/
def firstMatchingResponse (requestId requesterPubkey : String)
    (events : List NEvent) : Option NEvent :=
  events.find? (fun evt => isResponseMatch requestId requesterPubkey evt.tags)

/-- Claim C6: an incoming event is accepted as the match iff it carries a
reference tag equal to the pending request id or a recipient tag equal to the
requester pubkey; a matching reference tag suffices regardless of any
recipient tag; an event with neither is skipped and the correlator keeps
waiting on the remaining events. -/
theorem correlation_matching :
    ∀ (requestId requesterPubkey : String) (tags : List (List String))
      (evt : NEvent) (rest : List NEvent),
      (isResponseMatch requestId requesterPubkey tags = true ↔
        ∃ tag ∈ tags, ∃ key value more, tag = key :: value :: more ∧
          ((key = "e" ∧ value = requestId) ∨
            (key = "p" ∧ value = requesterPubkey))) ∧
      ((∃ more, ("e" :: requestId :: more) ∈ tags) →
        isResponseMatch requestId requesterPubkey tags = true) ∧
      (isResponseMatch requestId requesterPubkey evt.tags = false →
        firstMatchingResponse requestId requesterPubkey (evt :: rest) =
          firstMatchingResponse requestId requesterPubkey rest) := by
  intro R P tags evt rest
  refine ⟨?_, ?_, ?_⟩
  · rw [isResponseMatch, List.any_eq_true]
    constructor
    · rintro ⟨tag, htag, hm⟩
      refine ⟨tag, htag, ?_⟩
      cases tag with
      | nil => cases hm
      | cons key tl =>
        cases tl with
        | nil => cases hm
        | cons value more =>
          refine ⟨key, value, more, rfl, ?_⟩
          rcases Bool.or_eq_true_iff.mp hm with h | h
          · rcases Bool.and_eq_true_iff.mp h with ⟨h1, h2⟩
            exact Or.inr ⟨of_decide_eq_true h1, of_decide_eq_true h2⟩
          · rcases Bool.and_eq_true_iff.mp h with ⟨h1, h2⟩
            exact Or.inl ⟨of_decide_eq_true h1, of_decide_eq_true h2⟩
    · rintro ⟨tag, htag, key, value, more, rfl, hcase⟩
      refine ⟨key :: value :: more, htag, ?_⟩
      show (_ || _) = true
      rcases hcase with ⟨hk, hv⟩ | ⟨hk, hv⟩
      · subst hk
        subst hv
        simp [tagMatches]
      · subst hk
        subst hv
        simp [tagMatches]
  · rintro ⟨more, hmem⟩
    rw [isResponseMatch, List.any_eq_true]
    refine ⟨"e" :: R :: more, hmem, ?_⟩
    simp [tagMatches]
  · intro hno
    unfold firstMatchingResponse
    exact List.find?_cons_of_neg _ (by simp [hno])

theorem correlation_matching_witness :
    isResponseMatch "req1" "us"
      [["x", "y"], ["p", "someone-else"], ["e", "req1"]] = true :=
  (correlation_matching "req1" "us"
      [["x", "y"], ["p", "someone-else"], ["e", "req1"]]
      evX []).2.1 ⟨[], by decide⟩

/-- One step of the `PayInvoice` control flow, recorded as a trace action. -/
inductive NWCStep where
  | subscribe (relay : String) (kinds : List Nat) (authors : List String)
      (pTagValues : List String) (sinceNow : Bool)
  | settleDelayMs (ms : Nat)
  | publishRequest (relay : String) (kind : Nat)
  | waitForResponse
  deriving DecidableEq, Repr

/-- The sequence of suspension-point actions `PayInvoice` performs after
signing the request (part_000:144-178): subscribe to kind-23195 responses
authored by the wallet and addressed to us since now, sleep 500 ms, publish
the kind-23194 request to the wallet relay, then wait for the response. -/
def payInvoiceTrace (walletPubkey relay requesterPubkey : String) :
    List NWCStep :=
  [NWCStep.subscribe relay [23195] [walletPubkey] [requesterPubkey] true,
    NWCStep.settleDelayMs 500,
    NWCStep.publishRequest relay 23194,
    NWCStep.waitForResponse]

/-- Claim C9: in every run of the correlator, every publish of the request is
strictly preceded by opening the response subscription (response kind 23195,
author = wallet pubkey, recipient tag = requester pubkey, since = now), with
the fixed 500 ms settle delay between the two. -/
theorem nwc_subscribe_before_publish :
    ∀ (walletPubkey relay requesterPubkey : String) (j : Nat) (k : Nat),
      (payInvoiceTrace walletPubkey relay requesterPubkey).get? j =
        some (NWCStep.publishRequest relay k) →
      ∃ i, i < j ∧
        (payInvoiceTrace walletPubkey relay requesterPubkey).get? i =
          some (NWCStep.subscribe relay [23195] [walletPubkey]
            [requesterPubkey] true) ∧
        (∃ d, i < d ∧ d < j ∧
          (payInvoiceTrace walletPubkey relay requesterPubkey).get? d =
            some (NWCStep.settleDelayMs 500)) := by
  intro w r p j k hj
  have hj2 : j = 2 := by
    match j with
    | 0 => cases hj
    | 1 => cases hj
    | 2 => rfl
    | 3 => cases hj
    | n + 4 => cases hj
  subst hj2
  exact ⟨0, by omega, rfl, 1, by omega, by omega, rfl⟩

theorem nwc_subscribe_before_publish_witness :
    ∃ i, i < 2 ∧
      (payInvoiceTrace "wallet" "wss-relay" "us").get? i =
        some (NWCStep.subscribe "wss-relay" [23195] ["wallet"] ["us"] true) ∧
      (∃ d, i < d ∧ d < 2 ∧
        (payInvoiceTrace "wallet" "wss-relay" "us").get? d =
          some (NWCStep.settleDelayMs 500)) :=
  nwc_subscribe_before_publish "wallet" "wss-relay" "us" 2 23194 rfl

/-! ### Secure Messaging Dispatcher: receive side

`renderEvent` (model.go:1195-1242) dispatches on `kind`; the signing
capability (`decryptDM`, `unwrapGiftWrapDM`, model.go:2550-2599) is
abstracted as two fallible functions. -/

/-- The scan at model.go:1215-1220: the first tag with at least two elements
whose key is `"p"` yields the recipient pubkey. -/
def firstPTagValue : List (List String) → Option String
  | [] => none
  | (key :: value :: _) :: rest =>
    if key = "p" then some value else firstPTagValue rest
  | _ :: rest => firstPTagValue rest

/-- The `fmt.Sprintf` pattern at model.go:1231. -/
def nip04DecryptErrorPlaceholder (e : String) : String :=
  "[🔒 NIP-04 Encrypted - Decrypt error: " ++ e ++ "]"

/-- The `fmt.Sprintf` pattern at model.go:1240. -/
def nip17UnwrapErrorPlaceholder (e : String) : String :=
  "[🎁 NIP-17 Gift-wrap - Unwrap error: " ++ e ++ "]"

/-- The decrypt-dispatch portion of `renderEvent` (model.go:1207-1242),
computing the displayed content of one event. -/
def renderDisplayContent (viewerPubKey : String)
    (decryptDM : String → String → Except String String)
    (unwrapGiftWrapDM : NEvent → Except String String)
    (evt : NEvent) : String :=
  if evt.kind = 4 then
    let otherPubkey :=
      if evt.pubkey = viewerPubKey then (firstPTagValue evt.tags).getD ""
      else evt.pubkey
    if otherPubkey ≠ "" then
      match decryptDM evt.content otherPubkey with
      | .ok plain => plain
      | .error e => nip04DecryptErrorPlaceholder e
    else
      evt.content
  else if evt.kind = 1059 then
    match unwrapGiftWrapDM evt with
    | .ok plain => plain
    | .error e => nip17UnwrapErrorPlaceholder e
  else
    evt.content

/-- The collection loop of `updateContent` (model.go:193-200): every event of
the current collection is rendered, one block per event. -/
def renderCollection (viewerPubKey : String)
    (decryptDM : String → String → Except String String)
    (unwrapGiftWrapDM : NEvent → Except String String)
    (events : List NEvent) : List String :=
  events.map (renderDisplayContent viewerPubKey decryptDM unwrapGiftWrapDM)

theorem containsStr_middle (a e b : String) : containsStr (a ++ e ++ b) e := by
  unfold containsStr
  rw [String.data_append, String.data_append]
  exact ⟨a.data, b.data, rfl⟩

theorem firstPTagValue_eq_none :
    ∀ tags : List (List String),
      (∀ tag ∈ tags, tag.head? ≠ some "p") → firstPTagValue tags = none := by
  intro tags
  induction tags with
  | nil => intro _; rfl
  | cons t rest ih =>
    intro h
    have hrest : ∀ tag ∈ rest, tag.head? ≠ some "p" := fun tag htag =>
      h tag (List.mem_cons_of_mem _ htag)
    cases t with
    | nil =>
      show firstPTagValue ([] :: rest) = none
      simp only [firstPTagValue]
      exact ih hrest
    | cons key tl =>
      have hk : key ≠ "p" := by
        have := h (key :: tl) (List.mem_cons_self _ _)
        simpa using this
      cases tl with
      | nil =>
        show firstPTagValue ([key] :: rest) = none
        simp only [firstPTagValue]
        exact ih hrest
      | cons value more =>
        show firstPTagValue ((key :: value :: more) :: rest) = none
        simp only [firstPTagValue, if_neg hk]
        exact ih hrest

/-- Claim C7: an event whose decryption (legacy DM, either direction) or
gift-unwrap fails renders as the visible, non-empty error placeholder that
names the failure, while every other event of the collection is rendered
exactly as it would be on its own — the collection keeps its length (nothing
is dropped) and its other entries (nothing is aborted or altered). -/
theorem decrypt_failure_renders_placeholder :
    ∀ (viewer : String) (decryptDM : String → String → Except String String)
      (unwrap : NEvent → Except String String) (events : List NEvent)
      (evt : NEvent) (e : String),
      ((evt.kind = 4 ∧ evt.pubkey ≠ viewer ∧ evt.pubkey ≠ "" ∧
          decryptDM evt.content evt.pubkey = .error e) ∨
        (evt.kind = 4 ∧ evt.pubkey = viewer ∧
          (∃ v, firstPTagValue evt.tags = some v ∧ v ≠ "" ∧
            decryptDM evt.content v = .error e)) ∨
        (evt.kind = 1059 ∧ unwrap evt = .error e)) →
      (renderCollection viewer decryptDM unwrap events).length =
        events.length ∧
      (∀ j, (renderCollection viewer decryptDM unwrap events).get? j =
        (events.get? j).map (renderDisplayContent viewer decryptDM unwrap)) ∧
      (renderDisplayContent viewer decryptDM unwrap evt =
          nip04DecryptErrorPlaceholder e ∨
        renderDisplayContent viewer decryptDM unwrap evt =
          nip17UnwrapErrorPlaceholder e) ∧
      renderDisplayContent viewer decryptDM unwrap evt ≠ "" ∧
      containsStr (renderDisplayContent viewer decryptDM unwrap evt) e := by
  intro viewer decryptDM unwrap events evt e hfail
  have hplaceholder :
      (renderDisplayContent viewer decryptDM unwrap evt =
          nip04DecryptErrorPlaceholder e ∨
        renderDisplayContent viewer decryptDM unwrap evt =
          nip17UnwrapErrorPlaceholder e) := by
    rcases hfail with ⟨hk, hnv, hne, hdec⟩ | ⟨hk, hv, v, hfind, hvne, hdec⟩ |
      ⟨hk, hun⟩
    · left
      simp [renderDisplayContent, hk, hnv, hne, hdec]
    · left
      simp [renderDisplayContent, hk, hv, hfind, hvne, hdec]
    · right
      have hk4 : evt.kind ≠ 4 := by
        rw [hk]
        decide
      simp [renderDisplayContent, hk4, hk, hun]
  refine ⟨by simp [renderCollection], ?_, hplaceholder, ?_, ?_⟩
  · intro j
    simp [renderCollection, List.getElem?_map]
  · rcases hplaceholder with h | h <;> rw [h]
    · exact string_append_ne_empty "]"
        (string_append_ne_empty e (by decide))
    · exact string_append_ne_empty "]"
        (string_append_ne_empty e (by decide))
  · rcases hplaceholder with h | h <;> rw [h]
    · exact containsStr_middle _ e "]"
    · exact containsStr_middle _ e "]"

/-- A received legacy DM whose decryption fails. -/
def evP : NEvent := ⟨"d1", "aa", 3, 4, [], "cipher"⟩

theorem decrypt_failure_renders_placeholder_witness :
    containsStr (renderDisplayContent "v" (fun _ _ => Except.error "bad key")
      (fun _ => Except.error "x") evP) "bad key" :=
  (decrypt_failure_renders_placeholder "v" (fun _ _ => Except.error "bad key")
    (fun _ => Except.error "x") [evP] evP "bad key"
    (Or.inl ⟨rfl, by decide, by decide, rfl⟩)).2.2.2.2

/-- Claim C10: a legacy (kind 4) DM authored by the viewer that carries no
recipient tag is displayed as its stored ciphertext, unchanged, for every
decryption capability — no decryption is attempted and no placeholder
appears. -/
theorem own_legacy_dm_without_ptag_shown_raw :
    ∀ (viewer : String) (decryptDM : String → String → Except String String)
      (unwrap : NEvent → Except String String) (evt : NEvent),
      evt.kind = 4 → evt.pubkey = viewer →
      (∀ tag ∈ evt.tags, tag.head? ≠ some "p") →
      renderDisplayContent viewer decryptDM unwrap evt = evt.content := by
  intro viewer decryptDM unwrap evt hk hv hno
  simp [renderDisplayContent, hk, hv, firstPTagValue_eq_none evt.tags hno]

/-- A legacy DM sent by the viewer with no recipient tag. -/
def evQ : NEvent := ⟨"d2", "v", 3, 4, [["e", "x"]], "cipher"⟩

theorem own_legacy_dm_without_ptag_witness :
    renderDisplayContent "v" (fun _ _ => Except.error "never used")
      (fun _ => Except.error "x") evQ = "cipher" :=
  own_legacy_dm_without_ptag_shown_raw "v" (fun _ _ => Except.error "never used")
    (fun _ => Except.error "x") evQ rfl rfl (by decide)

/-! ### Secure Messaging Dispatcher: send side (`publishDMCmd`,
model.go:2025-2166). Gift wrapping, NIP-04 encryption and signing are
capability parameters. -/

/-- The rumor built at model.go:2034-2041: kind 14, recipient tag, sender
pubkey, id computed from the contents. -/
def dmRumor (pubKey recipientPubKey content : String) (now : Int)
    (getID : NEvent → String) : NEvent :=
  let base : NEvent :=
    { id := "", pubkey := pubKey, createdAt := now, kind := 14,
      tags := [["p", recipientPubKey]], content := content }
  { base with id := getID base }

/-- The legacy event built at model.go:2128-2134: kind 4, recipient tag,
encrypted content (pubkey and id are filled in by the signer). -/
def legacyDMEvent (recipientPubKey encrypted : String) (now : Int) : NEvent :=
  { id := "", pubkey := "", createdAt := now, kind := 4,
    tags := [["p", recipientPubKey]], content := encrypted }

/-- Envelope production of `publishDMCmd` (model.go:2030-2143): which events
the command hands to the publish bursts, or the error it returns before
publishing anything. -/
def sendDMPublishes (authMethod privKey pubKey recipientPubKey content : String)
    (now : Int) (getID : NEvent → String)
    (giftWrap : NEvent → String → Except String NEvent)
    (nip04encrypt : String → String → Except String String)
    (signEvt : NEvent → Except String NEvent) :
    Except String (List NEvent) :=
  if authMethod = "nsec" ∧ privKey ≠ "" then
    let rumor := dmRumor pubKey recipientPubKey content now getID
    match giftWrap rumor recipientPubKey with
    | .error e => .error ("failed to create gift wrap for recipient: " ++ e)
    | .ok wrapToRecipient =>
      match giftWrap rumor pubKey with
      | .error e => .error ("failed to create gift wrap for self: " ++ e)
      | .ok wrapToUs => .ok [wrapToRecipient, wrapToUs]
  else
    match nip04encrypt recipientPubKey content with
    | .error e => .error ("failed to encrypt DM: " ++ e)
    | .ok encrypted =>
      match signEvt (legacyDMEvent recipientPubKey encrypted now) with
      | .error e => .error ("failed to sign DM: " ++ e)
      | .ok signed => .ok [signed]

/-- Claim C8: with the modern capability (nsec with a private key) the DM
send wraps one rumor twice and publishes exactly two gift-wrap envelopes —
one produced for the recipient pubkey and one for the sender's own pubkey;
with only legacy encryption available it produces and publishes exactly one
legacy kind-4 envelope addressed to the recipient. -/
theorem send_dm_envelope_selection :
    ∀ (authMethod privKey pubKey recipientPubKey content : String) (now : Int)
      (getID : NEvent → String)
      (giftWrap : NEvent → String → Except String NEvent)
      (enc : String → String → Except String String)
      (signEvt : NEvent → Except String NEvent),
      (authMethod = "nsec" → privKey ≠ "" →
        ∀ w1 w2,
          giftWrap (dmRumor pubKey recipientPubKey content now getID)
            recipientPubKey = .ok w1 →
          giftWrap (dmRumor pubKey recipientPubKey content now getID)
            pubKey = .ok w2 →
          sendDMPublishes authMethod privKey pubKey recipientPubKey content
            now getID giftWrap enc signEvt = .ok [w1, w2]) ∧
      (¬ (authMethod = "nsec" ∧ privKey ≠ "") →
        ∀ ct se, enc recipientPubKey content = .ok ct →
          signEvt (legacyDMEvent recipientPubKey ct now) = .ok se →
          sendDMPublishes authMethod privKey pubKey recipientPubKey content
            now getID giftWrap enc signEvt = .ok [se]) ∧
      (dmRumor pubKey recipientPubKey content now getID).kind = 14 ∧
      (dmRumor pubKey recipientPubKey content now getID).tags =
        [["p", recipientPubKey]] ∧
      (∀ ct, (legacyDMEvent recipientPubKey ct now).kind = 4 ∧
        (legacyDMEvent recipientPubKey ct now).tags =
          [["p", recipientPubKey]]) := by
  intro authMethod privKey pubKey recipientPubKey content now getID giftWrap
    enc signEvt
  refine ⟨?_, ?_, rfl, rfl, fun ct => ⟨rfl, rfl⟩⟩
  · intro h1 h2 w1 w2 hw1 hw2
    unfold sendDMPublishes
    rw [if_pos ⟨h1, h2⟩]
    simp only [hw1, hw2]
  · intro hno ct se henc hsign
    unfold sendDMPublishes
    rw [if_neg hno]
    simp only [henc, hsign]

theorem send_dm_envelope_selection_witness :
    sendDMPublishes "nsec" "sk" "me" "you" "hi" 0 (fun _ => "rid")
      (fun _ _ => Except.ok evX) (fun _ _ => Except.ok "ct")
      (fun e => Except.ok e) = Except.ok [evX, evX] :=
  (send_dm_envelope_selection "nsec" "sk" "me" "you" "hi" 0 (fun _ => "rid")
    (fun _ _ => Except.ok evX) (fun _ _ => Except.ok "ct")
    (fun e => Except.ok e)).1 rfl (by decide) evX evX rfl rfl

end Noscli
